import Mathlib

/-!
# Verification of the ZMP optimizer QP formulation (`src/src/zmp_optimizer.cc`)

A shallow embedding of the matrix-building layer of the ZMP walking
optimizer.  Machine doubles are modelled as exact rationals `ℚ`; Eigen
matrices and vectors are modelled as total functions `ℕ → ℕ → ℚ` and
`ℕ → ℚ` (zero-initialised, as Eigen's `MatVec` artifacts are), with the
relevant dimensions tracked separately.  The external collaborators (the
QP solver, Ipopt, and the support-triangle geometry) are parameters of
the corresponding functions, so that every definition here is the code of
`zmp_optimizer.cc` itself, not of its collaborators.
-/

namespace xpp

/-- Modelled from the spec: two horizontal axes (`kDim2d`), cf. the
data model "two horizontal axes"; the constant lives in a header that is
not part of the sources. -/
def kDim2d : ℕ := 2

/-- Modelled from the spec: four free coefficients `{A,B,C,D}` per
segment and axis (`kOptCoeff`); the constant lives in a header that is
not part of the sources. -/
def kOptCoeff : ℕ := 4

/-- Modelled from the spec: the global coefficient index, "a bijective,
contiguous mapping `(segment_id, axis, coefficient_letter) → integer`,
total count = segments × 2 axes × 4 free coefficients".  Letters are
numbered `A = 0, B = 1, C = 2, D = 3`, axes `X = 0, Y = 1`, matching the
coefficient ordering documented in `SolveQp`'s trace output. -/
def var_index (spline dim coeff : ℕ) : ℕ :=
  spline * (kDim2d * kOptCoeff) + dim * kOptCoeff + coeff

/-- One spline segment, from the data model of the spec and the uses in
`zmp_optimizer.cc`: identity, duration, owning step and the
full-support flag. -/
structure ZmpSpline where
  id_ : ℕ
  duration_ : ℚ
  step_ : ℕ
  four_leg_supp_ : Bool
deriving DecidableEq

instance : Inhabited ZmpSpline := ⟨⟨0, 0, 0, false⟩⟩

/-- The ordered spline sequence (`zmp_splines_.splines_`). -/
abbrev Splines := List ZmpSpline

/-- Modelled from the spec: total number of free optimization
coefficients, "total count = segments × 2 axes × 4 free coefficients"
(`GetOptCoeffCount`, declared in the missing spline-container header). -/
def GetOptCoeffCount (ss : Splines) : ℕ :=
  ss.length * (kDim2d * kOptCoeff)

/-- Duration of the spline at position `k` of the sequence. -/
def durAt (ss : Splines) (k : ℕ) : ℚ :=
  ((ss.get? k).getD default).duration_

/-- A 2-d quantity indexed by axis (`Eigen::Vector2d` accessed with
`(dim)`). -/
abbrev Pos2d := ℕ → ℚ

/-- One edge line of a support triangle (`SuppTriangle::TrLine`): the
half-plane coefficients `(p, q, r)` and the stability margin. -/
structure TrLine where
  p : ℚ
  q : ℚ
  r : ℚ
  s_margin : ℚ
deriving DecidableEq

instance : Inhabited TrLine := ⟨⟨0, 0, 0, 0⟩⟩

/-- Modelled from the spec: the support-polygon geometry provider
returns, per step index, the three edge lines of that step's support
triangle (`supp_triangles.at(step).CalcLines()`). -/
abbrev SuppTriangleLines := ℕ → TrLine × TrLine × TrLine

/-- A matrix/vector pair (`xpp::zmp::MatVec`), zero-initialised on
construction. -/
structure MatVec where
  M : ℕ → ℕ → ℚ
  v : ℕ → ℚ

/-- A fresh zero-initialised `MatVec`. -/
def MatVec.init : MatVec := ⟨fun _ _ => 0, fun _ => 0⟩

/-- Modelled from the spec: `DescribeEByPrev` of the spline container.
Segment `k`'s linear coefficient `E` is an affine function of all
preceding segments' free coefficients: the velocity at the start of
segment `k` equals the velocity of segment `k-1` evaluated at its own
duration (`5At⁴ + 4Bt³ + 3Ct² + 2Dt + E`), seeded with the initial
velocity for segment `0`.  Returns the linear part (indexed by the
global coefficient index) and the constant part. -/
def DescribeEByPrev (ss : Splines) : ℕ → ℕ → ℚ → (ℕ → ℚ) × ℚ
  | 0, _, start_v => (fun _ => 0, start_v)
  | k + 1, dim, start_v =>
    let prev := DescribeEByPrev ss k dim start_v
    let T := durAt ss k
    (fun j =>
      (if j = var_index k dim 0 then 5 * T ^ 4
       else if j = var_index k dim 1 then 4 * T ^ 3
       else if j = var_index k dim 2 then 3 * T ^ 2
       else if j = var_index k dim 3 then 2 * T
       else 0) + prev.1 j,
     prev.2)

/-- Modelled from the spec: `DescribeFByPrev` of the spline container.
Segment `k`'s constant coefficient `F` is an affine function of all
preceding segments' free coefficients: the position at the start of
segment `k` equals the position of segment `k-1` evaluated at its own
duration (`At⁵ + Bt⁴ + Ct³ + Dt² + Et + F`), seeded with the initial
position for segment `0`. -/
def DescribeFByPrev (ss : Splines) : ℕ → ℕ → ℚ → ℚ → (ℕ → ℚ) × ℚ
  | 0, _, _, start_p => (fun _ => 0, start_p)
  | k + 1, dim, start_v, start_p =>
    let prevF := DescribeFByPrev ss k dim start_v start_p
    let prevE := DescribeEByPrev ss k dim start_v
    let T := durAt ss k
    (fun j =>
      (if j = var_index k dim 0 then T ^ 5
       else if j = var_index k dim 1 then T ^ 4
       else if j = var_index k dim 2 then T ^ 3
       else if j = var_index k dim 3 then T ^ 2
       else 0) + T * prevE.1 j + prevF.1 j,
     T * prevE.2 + prevF.2)

/-! ## Cost function builder (`CreateMinAccCostFunction`) -/

/-- A single Eigen coefficient write `cf.M(i, j) = val`. -/
def upd (M : ℕ → ℕ → ℚ) (i j : ℕ) (val : ℚ) : ℕ → ℕ → ℚ :=
  fun r c => if r = i ∧ c = j then val else M r c

/-- The mirroring loop of `CreateMinAccCostFunction`: for every column
`c` and row `r > c`, `cf.M(r, c) = cf.M(c, r)`. -/
def mirrorLower (M : ℕ → ℕ → ℚ) : ℕ → ℕ → ℚ :=
  fun r c => if c < r then M c r else M r c

/-- The ten upper-triangle writes of one segment/axis cost block
(`CreateMinAccCostFunction`, values from M. Kalakrishnan et al., IJRR
2010, p. 248), with `t_span i = duration ^ i`. -/
def costBlockWrite (s : ZmpSpline) (weight : ℕ → ℚ) (dim : ℕ)
    (M : ℕ → ℕ → ℚ) : ℕ → ℕ → ℚ :=
  upd (upd (upd (upd (upd (upd (upd (upd (upd (upd M
    (var_index s.id_ dim 0) (var_index s.id_ dim 0)
      (400 / 7 * s.duration_ ^ 7 * weight dim))
    (var_index s.id_ dim 0) (var_index s.id_ dim 1)
      (40 * s.duration_ ^ 6 * weight dim))
    (var_index s.id_ dim 0) (var_index s.id_ dim 2)
      (120 / 5 * s.duration_ ^ 5 * weight dim))
    (var_index s.id_ dim 0) (var_index s.id_ dim 3)
      (10 * s.duration_ ^ 4 * weight dim))
    (var_index s.id_ dim 1) (var_index s.id_ dim 1)
      (144 / 5 * s.duration_ ^ 5 * weight dim))
    (var_index s.id_ dim 1) (var_index s.id_ dim 2)
      (18 * s.duration_ ^ 4 * weight dim))
    (var_index s.id_ dim 1) (var_index s.id_ dim 3)
      (8 * s.duration_ ^ 3 * weight dim))
    (var_index s.id_ dim 2) (var_index s.id_ dim 2)
      (12 * s.duration_ ^ 3 * weight dim))
    (var_index s.id_ dim 2) (var_index s.id_ dim 3)
      (6 * s.duration_ ^ 2 * weight dim))
    (var_index s.id_ dim 3) (var_index s.id_ dim 3)
      (4 * s.duration_ ^ 1 * weight dim)

/-- `CreateMinAccCostFunction`: for each segment, for each axis, fill
the ten upper-triangle entries of that segment/axis block, then mirror
the upper triangle into the lower one; the linear term `v` stays zero. -/
def CreateMinAccCostFunction (ss : Splines) (weight : ℕ → ℚ) : MatVec :=
  ⟨ss.foldl
      (fun M s =>
        (List.range kDim2d).foldl
          (fun M dim => mirrorLower (costBlockWrite s weight dim M)) M)
      (fun _ _ => 0),
   fun _ => 0⟩

/-! ## Equality constraint builder (`CreateEqualityContraints`) -/

/-- Initial acceleration target (`kAccStart`, fixed at zero). -/
def kAccStart : Pos2d := fun _ => 0

/-- Initial jerk target (`kJerkStart`, fixed at zero). -/
def kJerkStart : Pos2d := fun _ => 0

/-- Final velocity target (`kVelEnd`, fixed at zero). -/
def kVelEnd : Pos2d := fun _ => 0

/-- Final acceleration target (`kAccEnd`, fixed at zero). -/
def kAccEnd : Pos2d := fun _ => 0

/-- Write one equality-constraint row: set column `i` of the matrix to
`col`, entry `i` of the vector to `rhs`, and advance the row counter
(the `i++` pattern of `CreateEqualityContraints`). -/
def pushRow (st : MatVec × ℕ) (col : ℕ → ℚ) (rhs : ℚ) : MatVec × ℕ :=
  (⟨fun r c => if c = st.2 then col r else st.1.M r c,
    fun c => if c = st.2 then rhs else st.1.v c⟩,
   st.2 + 1)

/-- The declared number of equality constraints
(`CreateEqualityContraints`, the `constraints` accumulation):
`kDim2d*2` initial rows (acc, jerk; pos and vel are implied), `kDim2d*3`
final rows (pos, vel, acc) and `(n-1)*kDim2d*2` junction rows. -/
def eqConstraintsCount (ss : Splines) : ℕ :=
  kDim2d * 2 + kDim2d * 3 + (ss.length - 1) * kDim2d * 2

/-- The per-axis block of rows of `CreateEqualityContraints`: initial
acceleration and jerk against the first segment's `{C,D}`, then final
position/velocity/acceleration rows against the last segment evaluated
at its duration, including the propagated `E`,`F` affine terms. -/
def eqRowsDim (ss : Splines) (start_cog_p start_cog_v end_cog : Pos2d)
    (dim : ℕ) (st : MatVec × ℕ) : MatVec × ℕ :=
  let st := pushRow st (fun j => if j = var_index 0 dim 3 then 2 else 0)
      (-(kAccStart dim))
  let st := pushRow st (fun j => if j = var_index 0 dim 2 then 6 else 0)
      (-(kJerkStart dim))
  let K := (ss.getLast?.getD default).id_
  let T := (ss.getLast?.getD default).duration_
  let Ek := DescribeEByPrev ss K dim (start_cog_v dim)
  let Fk := DescribeFByPrev ss K dim (start_cog_v dim) (start_cog_p dim)
  let st := pushRow st
      (fun j =>
        (if j = var_index K dim 0 then T ^ 5
         else if j = var_index K dim 1 then T ^ 4
         else if j = var_index K dim 2 then T ^ 3
         else if j = var_index K dim 3 then T ^ 2
         else 0) + Ek.1 j * T + Fk.1 j)
      (Ek.2 * T + Fk.2 + -(end_cog dim))
  let st := pushRow st
      (fun j =>
        (if j = var_index K dim 0 then 5 * T ^ 4
         else if j = var_index K dim 1 then 4 * T ^ 3
         else if j = var_index K dim 2 then 3 * T ^ 2
         else if j = var_index K dim 3 then 2 * T
         else 0) + Ek.1 j)
      (Ek.2 + -(kVelEnd dim))
  pushRow st
      (fun j =>
        if j = var_index K dim 0 then 20 * T ^ 3
        else if j = var_index K dim 1 then 12 * T ^ 2
        else if j = var_index K dim 2 then 6 * T
        else if j = var_index K dim 3 then 2
        else 0)
      (-(kAccEnd dim))

/-- The two junction rows (acceleration and jerk continuity) between
segments `s` and `s+1` on one axis. -/
def eqJunctionRows (ss : Splines) (s dim : ℕ) (st : MatVec × ℕ) :
    MatVec × ℕ :=
  let T := durAt ss s
  let cur := var_index s dim 0
  let nxt := var_index (s + 1) dim 0
  let st := pushRow st
      (fun j =>
        if j = cur then 20 * T ^ 3
        else if j = cur + 1 then 12 * T ^ 2
        else if j = cur + 2 then 6 * T
        else if j = cur + 3 then 2
        else if j = nxt + 3 then -2
        else 0)
      0
  pushRow st
      (fun j =>
        if j = cur then 60 * T ^ 2
        else if j = cur + 1 then 24 * T
        else if j = cur + 2 then 6
        else if j = nxt + 2 then -6
        else 0)
      0

/-- `CreateEqualityContraints`: the matrix/vector pair together with
the final row counter (the number of rows actually written). -/
def CreateEqualityContraints (ss : Splines)
    (start_cog_p start_cog_v end_cog : Pos2d) : MatVec × ℕ :=
  let st := (List.range kDim2d).foldl
      (fun st dim => eqRowsDim ss start_cog_p start_cog_v end_cog dim st)
      (MatVec.init, 0)
  (List.range (ss.length - 1)).foldl
      (fun st s =>
        (List.range kDim2d).foldl
          (fun st dim => eqJunctionRows ss s dim st) st)
      st

/-! ## Inequality constraint builder (`CreateInequalityContraints`) -/

/-- The gravity constant of `CreateInequalityContraints`
(`const double g = 9.81`). -/
def gravity : ℚ := 981 / 100

/-- `GetXyDimAlternatingVector`: per spline, fill the four x-axis
coefficient slots with `x` and the four y-axis coefficient slots with
`y`. -/
def GetXyDimAlternatingVector (ss : Splines) (x y : ℚ) : ℕ → ℚ :=
  ss.foldl
    (fun vec s => fun j =>
      if var_index s.id_ 0 0 ≤ j ∧ j < var_index s.id_ 0 0 + kOptCoeff then x
      else if var_index s.id_ 1 0 ≤ j ∧ j < var_index s.id_ 1 0 + kOptCoeff
        then y
      else vec j)
    (fun _ => 0)

/-- The four free-coefficient matrix entries of one axis of a ZMP
inequality row: `position(t) - h/(g+z_acc) * acceleration(t)` with
`z_acc = 0`, written at the segment's `{A,B,C,D}` indices of that
axis. -/
def ineqDimEntries (k dim : ℕ) (h time : ℚ) (j : ℕ) : ℚ :=
  let z_acc : ℚ := 0
  if j = var_index k dim 0 then time ^ 5 - h / (gravity + z_acc) * 20 * time ^ 3
  else if j = var_index k dim 1 then time ^ 4 - h / (gravity + z_acc) * 12 * time ^ 2
  else if j = var_index k dim 2 then time ^ 3 - h / (gravity + z_acc) * 6 * time ^ 1
  else if j = var_index k dim 3 then time ^ 2 - h / (gravity + z_acc) * 2
  else 0

/-- One inequality row (`CreateInequalityContraints`, body of the
`j < 3` loop): the raw column accumulates both axes' coefficient
entries plus `t¹·Ek` and `t⁰·Fk`; the stored matrix column is the raw
column element-wise multiplied with the `(p,q)` alternating vector; the
stored vector entry is `p*(e_x*t⁰ + f_x) + q*(e_y*t⁰ + f_y) + r -
margin`, exactly as the source computes it (`non_dependent_e*t[0]`). -/
def ineqRow (ss : Splines) (k : ℕ) (h time : ℚ)
    (Ekx Fkx Eky Fky : ℕ → ℚ) (nex nfx ney nfy : ℚ)
    (l : TrLine) (st : MatVec × ℕ) : MatVec × ℕ :=
  let colRaw : ℕ → ℚ := fun j =>
    ineqDimEntries k 0 h time j + time ^ 1 * Ekx j + time ^ 0 * Fkx j
    + ineqDimEntries k 1 h time j + time ^ 1 * Eky j + time ^ 0 * Fky j
  let altv := GetXyDimAlternatingVector ss l.p l.q
  let vx := nex * time ^ 0 + nfx
  let vy := ney * time ^ 0 + nfy
  (⟨fun r cc => if cc = st.2 then colRaw r * altv r else st.1.M r cc,
    fun cc => if cc = st.2 then l.p * vx + l.q * vy + l.r - l.s_margin
      else st.1.v cc⟩,
   st.2 + 1)

/-- `CreateInequalityContraints`: skip full-support segments; for the
others, for every sampling step `i·dt` with `i < floor(duration/dt)`
emit three rows, one per support-triangle line, reading the line for
each row from the flat `line_for_constraint` list at the running row
counter.  Returns the matrix/vector pair and the final row counter. -/
def CreateInequalityContraints (ss : Splines)
    (start_cog_p start_cog_v : Pos2d)
    (line_for_constraint : List TrLine) (h dt : ℚ) : MatVec × ℕ :=
  ss.foldl
    (fun st s =>
      if s.four_leg_supp_ then st
      else
        let k := s.id_
        let Ekx := DescribeEByPrev ss k 0 (start_cog_v 0)
        let Fkx := DescribeFByPrev ss k 0 (start_cog_v 0) (start_cog_p 0)
        let Eky := DescribeEByPrev ss k 1 (start_cog_v 1)
        let Fky := DescribeFByPrev ss k 1 (start_cog_v 1) (start_cog_p 1)
        (List.range (Nat.floor (s.duration_ / dt))).foldl
          (fun st2 (i : ℕ) =>
            let time := (i : ℚ) * dt
            (List.range 3).foldl
              (fun st3 _j =>
                let l := line_for_constraint.getD st3.2 default
                ineqRow ss k h time Ekx.1 Fkx.1 Eky.1 Fky.1
                  Ekx.2 Fkx.2 Eky.2 Fky.2 l st3)
              st2)
          st)
    (MatVec.init, 0)

/-- `LineForConstraint`: for every non-full-support segment, for every
sampling node (`floor(duration/dt)` of them), push the three lines of
that segment's step's support triangle. -/
def LineForConstraint (ss : Splines) (supp_triangles : SuppTriangleLines)
    (dt : ℚ) : List TrLine :=
  ss.foldl
    (fun acc s =>
      if s.four_leg_supp_ then acc
      else
        let lines := supp_triangles s.step_
        (List.range (Nat.floor (s.duration_ / dt))).foldl
          (fun a _i => a ++ [lines.1, lines.2.1, lines.2.2]) acc)
    []

/-! ## Optimizer facade (`SetupQpMatrices`, `SolveQp`, `SolveIpopt`) -/

/-- The error taxonomy of the facade. -/
inductive ZmpErr where
  | configurationError
  | infeasibleSolutionError
  | solverInitError
deriving DecidableEq

/-- A foothold: 3-d position plus leg identity; only the `xy` part is
used by `SetupQpMatrices`. -/
structure Foothold where
  x : ℚ
  y : ℚ
  z : ℚ
  leg : ℕ
deriving DecidableEq

instance : Inhabited Foothold := ⟨⟨0, 0, 0, 0⟩⟩

/-- The horizontal part of a foothold position
(`foothold.p.segment<kDim2d>(X)` accessed per axis). -/
def footXY (f : Foothold) : Pos2d := fun d => if d = 0 then f.x else f.y

/-- The four legs (`hyq::LegID`). -/
inductive LegID where
  | LF
  | RF
  | LH
  | RH
deriving DecidableEq

/-- `hyq::LegIDArray`: the four legs in order. -/
def LegIDArray : List LegID := [.LF, .RF, .LH, .RH]

/-- Opaque per-step stability margin payload, handed unchanged to the
support-triangle collaborator. -/
abbrev MarginValues := List ℚ

/-- Modelled from the spec: the signature of the support-polygon
geometry collaborator `SuppTriangle::FromFootholds`, which from the
start stance, the planned steps and the margins produces the per-step
support-triangle lines and the final stance. -/
abbrev FromFootholdsFn :=
  (LegID → Foothold) → List Foothold → MarginValues →
    SuppTriangleLines × (LegID → Foothold)

/-- The `end_cog` computation of `SetupQpMatrices`: start from zero,
accumulate the xy position of every leg's final-stance foothold, then
divide by 4 (the number of legs). -/
def setupEndCog (final_stance : LegID → Foothold) : Pos2d := fun d =>
  (LegIDArray.foldl (fun acc leg => acc + footXY (final_stance leg) d) 0) / 4

/-- The three matrix artifacts produced by `SetupQpMatrices` (the
members `cf_`, `eq_`, `ineq_` and `lines_for_constraint_`). -/
structure QpArtifacts where
  cf : MatVec
  eq : MatVec × ℕ
  ineq : MatVec × ℕ
  lines : List TrLine

/-- `SetupQpMatrices`: throw a configuration error when the spline
sequence is empty; otherwise build the cost function, compute the final
stance via the support-triangle collaborator, average its four foothold
xy positions into `end_cog`, build the equality constraints against it,
and build the inequality constraints with the fixed sampling interval
`dt = 0.1`. -/
def SetupQpMatrices (ss : Splines) (fromFootholds : FromFootholdsFn)
    (start_cog_p start_cog_v : Pos2d) (start_stance : LegID → Foothold)
    (steps : List Foothold) (weight : ℕ → ℚ) (margins : MarginValues)
    (height_robot : ℚ) : Except ZmpErr QpArtifacts :=
  if ss.isEmpty then .error .configurationError
  else
    let cf := CreateMinAccCostFunction ss weight
    let trs := fromFootholds start_stance steps margins
    let end_cog : Pos2d := setupEndCog trs.2
    let eq := CreateEqualityContraints ss start_cog_p start_cog_v end_cog
    let dt : ℚ := 1 / 10
    let lines := LineForConstraint ss trs.1 dt
    let ineq := CreateInequalityContraints ss start_cog_p start_cog_v lines
        height_robot dt
    .ok ⟨cf, eq, ineq, lines⟩

/-- The cost reported by the external QP solver: either the infinity
sentinel or a finite value. -/
inductive QpCost where
  | inf
  | fin (cost : ℚ)
deriving DecidableEq

/-- `SolveQp`: the external solver's result (achieved cost and
coefficient vector) is a parameter; the function throws when the cost is
the infinity sentinel or lies below the `0.002` sanity threshold, and
otherwise returns the solver's coefficient vector unchanged. -/
def SolveQp (solverResult : QpCost × (ℕ → ℚ)) : Except ZmpErr (ℕ → ℚ) :=
  match solverResult with
  | (.inf, _) => .error .infeasibleSolutionError
  | (.fin cost, x) =>
    if cost < 2 / 1000 then .error .infeasibleSolutionError else .ok x

/-- The `Ipopt::ApplicationReturnStatus` values distinguished by
`SolveIpopt`. -/
inductive IpoptStatus where
  | solveSucceeded
  | notSucceeded
deriving DecidableEq

/-- `SolveIpopt`: throws only when the Ipopt application fails to come
up (`app.Initialize()`); the status of `OptimizeTNLP` itself is only
used for printing statistics, after which the NLP object's final
footholds and final spline coefficients are returned regardless. -/
def SolveIpopt (initStatus optStatus : IpoptStatus)
    (nlpFinalFootholds nlpFinalCoeffs : ℕ → ℚ) :
    Except ZmpErr ((ℕ → ℚ) × (ℕ → ℚ)) :=
  match initStatus with
  | .notSucceeded => .error .solverInitError
  | .solveSucceeded =>
    match optStatus with
    | _ => .ok (nlpFinalFootholds, nlpFinalCoeffs)

/-! ## Spec-side definitions used to state the claims -/

/-- Whether every spline's stored `id_` equals its position in the
sequence (the well-formedness produced by `ConstructSplineSequence`). -/
def splineIdsOkB (ss : Splines) : Bool :=
  (List.range ss.length).all fun k => ((ss.get? k).map (·.id_)) == some k

/-- Follows the spec's words: the constant entry of an inequality row,
`p·(e_x·t + f_x) + q·(e_y·t + f_y) + r - margin`, i.e. the constant
part of `p·zmp_x(t) + q·zmp_y(t) + r - margin` where the propagated
`E`,`F` terms contribute `e·t + f` to the position on each axis. -/
def specIneqRowConst (l : TrLine) (time nex nfx ney nfy : ℚ) : ℚ :=
  l.p * (nex * time + nfx) + l.q * (ney * time + nfy) + l.r - l.s_margin

/-- Follows the spec's words: the component-wise average of the four
final-stance foothold xy positions, their sum divided by 4. -/
def finalStanceAvg (fs : LegID → Foothold) : Pos2d := fun d =>
  (footXY (fs .LF) d + footXY (fs .RF) d + footXY (fs .LH) d +
    footXY (fs .RH) d) / 4

/-- A trivial support-triangle collaborator, used to instantiate the
facade theorems at concrete inputs. -/
def trivialFromFootholds : FromFootholdsFn :=
  fun _ _ _ => (fun _ => (default, default, default), fun _ => default)

/-- Follows the spec's words: the total number of sampling timesteps,
`Σ floor(duration/dt)` over the segments not flagged full-support. -/
def ineqSampleSum (ss : Splines) (dt : ℚ) : ℕ :=
  ((ss.filter fun s => !s.four_leg_supp_).map
    fun s => Nat.floor (s.duration_ / dt)).sum

/-- The quadratic form `xᵀ M x` of an `n × n` matrix. -/
def quadForm (n : ℕ) (M : ℕ → ℕ → ℚ) (x : ℕ → ℚ) : ℚ :=
  ∑ i ∈ Finset.range n, ∑ j ∈ Finset.range n, x i * M i j * x j

/-- The symmetrized content of one mirrored segment/axis cost block
with upper-left corner `(q, q)`: the ten upper-triangle values written
by `costBlockWrite` together with their mirror images, and `0`
everywhere else.  Used to characterize the matrix built by
`CreateMinAccCostFunction`. -/
def costValSymAt (T wd : ℚ) (q r c : ℕ) : ℚ :=
  if r = q ∧ c = q then 400 / 7 * T ^ 7 * wd
  else if (r = q ∧ c = q + 1) ∨ (r = q + 1 ∧ c = q) then 40 * T ^ 6 * wd
  else if (r = q ∧ c = q + 2) ∨ (r = q + 2 ∧ c = q) then 120 / 5 * T ^ 5 * wd
  else if (r = q ∧ c = q + 3) ∨ (r = q + 3 ∧ c = q) then 10 * T ^ 4 * wd
  else if r = q + 1 ∧ c = q + 1 then 144 / 5 * T ^ 5 * wd
  else if (r = q + 1 ∧ c = q + 2) ∨ (r = q + 2 ∧ c = q + 1) then 18 * T ^ 4 * wd
  else if (r = q + 1 ∧ c = q + 3) ∨ (r = q + 3 ∧ c = q + 1) then 8 * T ^ 3 * wd
  else if r = q + 2 ∧ c = q + 2 then 12 * T ^ 3 * wd
  else if (r = q + 2 ∧ c = q + 3) ∨ (r = q + 3 ∧ c = q + 2) then 6 * T ^ 2 * wd
  else if r = q + 3 ∧ c = q + 3 then 4 * T ^ 1 * wd
  else 0

/-- The same block content indexed by in-block offsets `ii, jj < 4`. -/
def cvTable (T wd : ℚ) : ℕ → ℕ → ℚ
  | 0, 0 => 400 / 7 * T ^ 7 * wd
  | 0, 1 => 40 * T ^ 6 * wd
  | 1, 0 => 40 * T ^ 6 * wd
  | 0, 2 => 120 / 5 * T ^ 5 * wd
  | 2, 0 => 120 / 5 * T ^ 5 * wd
  | 0, 3 => 10 * T ^ 4 * wd
  | 3, 0 => 10 * T ^ 4 * wd
  | 1, 1 => 144 / 5 * T ^ 5 * wd
  | 1, 2 => 18 * T ^ 4 * wd
  | 2, 1 => 18 * T ^ 4 * wd
  | 1, 3 => 8 * T ^ 3 * wd
  | 3, 1 => 8 * T ^ 3 * wd
  | 2, 2 => 12 * T ^ 3 * wd
  | 2, 3 => 6 * T ^ 2 * wd
  | 3, 2 => 6 * T ^ 2 * wd
  | 3, 3 => 4 * T ^ 1 * wd
  | _, _ => 0

/-- The closed-form value of `∫_0^T (20a t³ + 12b t² + 6c t + 2d)² dt`,
the integrated squared second derivative of one segment/axis quintic
over its free coefficients. -/
def acc2IntQ (T a b c d : ℚ) : ℚ :=
  400 / 7 * a ^ 2 * T ^ 7 + 80 * a * b * T ^ 6 + 48 * a * c * T ^ 5
    + 20 * a * d * T ^ 4 + 144 / 5 * b ^ 2 * T ^ 5 + 36 * b * c * T ^ 4
    + 16 * b * d * T ^ 3 + 12 * c ^ 2 * T ^ 3 + 12 * c * d * T ^ 2
    + 4 * d ^ 2 * T

/-! ## Helper lemmas -/

theorem mirrorLower_symm (M : ℕ → ℕ → ℚ) (r c : ℕ) :
    mirrorLower M r c = mirrorLower M c r := by
  unfold mirrorLower
  split_ifs with h1 h2 h3
  · omega
  · rfl
  · rfl
  · have h : r = c := by omega
    rw [h]

theorem cost_foldl_symm (w : ℕ → ℚ) :
    ∀ (l : List ZmpSpline) (M : ℕ → ℕ → ℚ),
      (∀ r c, M r c = M c r) →
      ∀ r c,
        (l.foldl
          (fun M s =>
            (List.range kDim2d).foldl
              (fun M dim => mirrorLower (costBlockWrite s w dim M)) M) M) r c
        = (l.foldl
          (fun M s =>
            (List.range kDim2d).foldl
              (fun M dim => mirrorLower (costBlockWrite s w dim M)) M) M) c r := by
  intro l
  induction l with
  | nil => intro M hM r c; exact hM r c
  | cons a t ih =>
    intro M hM r c
    simp only [List.foldl_cons]
    apply ih
    intro r c
    show mirrorLower _ _ _ = mirrorLower _ _ _
    exact mirrorLower_symm _ r c

theorem pushRow_counter (st : MatVec × ℕ) (col : ℕ → ℚ) (rhs : ℚ) :
    (pushRow st col rhs).2 = st.2 + 1 := rfl

theorem eqRowsDim_counter (ss : Splines) (sp sv ec : Pos2d) (dim : ℕ)
    (st : MatVec × ℕ) : (eqRowsDim ss sp sv ec dim st).2 = st.2 + 5 := rfl

theorem eqJunctionRows_counter (ss : Splines) (s dim : ℕ) (st : MatVec × ℕ) :
    (eqJunctionRows ss s dim st).2 = st.2 + 2 := rfl

theorem eqJunctionFold_counter (ss : Splines) :
    ∀ (n : ℕ) (st : MatVec × ℕ),
      ((List.range n).foldl
        (fun st s =>
          (List.range kDim2d).foldl
            (fun st dim => eqJunctionRows ss s dim st) st) st).2
      = st.2 + 4 * n := by
  intro n
  induction n with
  | zero => intro st; simp
  | succ m ih =>
    intro st
    rw [List.range_succ, List.foldl_append]
    simp only [List.foldl_cons, List.foldl_nil]
    have h1 : ∀ (st' : MatVec × ℕ),
        ((List.range kDim2d).foldl
          (fun st dim => eqJunctionRows ss m dim st) st').2 = st'.2 + 4 := by
      intro st'; rfl
    rw [h1, ih]
    omega

/-! ## Claim theorems -/

/-- C1 (counterexample): for the one-segment sequence the equality
constraint builder declares and fills exactly 10 rows, not the
`4·2 + 3·2 + 2·2·(1-1) = 14` rows of the claim. -/
theorem eq_rowcount_one_segment_is_ten :
    eqConstraintsCount [⟨0, 1, 0, false⟩] = 10 ∧
    (CreateEqualityContraints [⟨0, 1, 0, false⟩] (fun _ => 0) (fun _ => 0)
      (fun _ => 0)).2 = 10 ∧
    (10 : ℕ) ≠ 4 * 2 + 3 * 2 + 2 * 2 * (1 - 1) := by
  refine ⟨rfl, rfl, by decide⟩

/-- C1 (amended): for every non-empty spline sequence of `n` segments,
`CreateEqualityContraints` declares and fills exactly
`2·2 + 3·2 + 2·2·(n-1)` equality-constraint rows: four boundary rows
(initial acceleration and jerk per axis), six final-condition rows and
four rows per internal junction. -/
theorem eq_rowcount (ss : Splines) (sp sv ec : Pos2d) (hne : ss ≠ []) :
    eqConstraintsCount ss = 2 * 2 + 3 * 2 + 2 * 2 * (ss.length - 1) ∧
    (CreateEqualityContraints ss sp sv ec).2
      = 2 * 2 + 3 * 2 + 2 * 2 * (ss.length - 1) := by
  constructor
  · unfold eqConstraintsCount kDim2d
    omega
  · unfold CreateEqualityContraints
    rw [eqJunctionFold_counter]
    have h10 : ((List.range kDim2d).foldl
        (fun st dim => eqRowsDim ss sp sv ec dim st) (MatVec.init, 0)).2 = 10 :=
      rfl
    rw [h10]

/-- C1 witness. -/
theorem eq_rowcount_witness :
    ([⟨0, 1, 0, false⟩] : Splines) ≠ [] ∧
    (eqConstraintsCount [⟨0, 1, 0, false⟩]
        = 2 * 2 + 3 * 2 + 2 * 2 * (([⟨0, 1, 0, false⟩] : Splines).length - 1) ∧
      (CreateEqualityContraints [⟨0, 1, 0, false⟩] (fun _ => 0) (fun _ => 0)
        (fun _ => 0)).2
        = 2 * 2 + 3 * 2 + 2 * 2 * (([⟨0, 1, 0, false⟩] : Splines).length - 1)) :=
  ⟨by decide,
   eq_rowcount [⟨0, 1, 0, false⟩] (fun _ => 0) (fun _ => 0) (fun _ => 0)
     (by decide)⟩

theorem lfc_inner_length (l0 l1 l2 : TrLine) :
    ∀ (n : ℕ) (acc : List TrLine),
      ((List.range n).foldl (fun a _i => a ++ [l0, l1, l2]) acc).length
        = acc.length + 3 * n := by
  intro n
  induction n with
  | zero => intro acc; simp
  | succ m ih =>
    intro acc
    rw [List.range_succ, List.foldl_append]
    simp only [List.foldl_cons, List.foldl_nil]
    rw [List.length_append, ih]
    simp
    omega

theorem LineForConstraint_go_length (tr : SuppTriangleLines) (dt : ℚ) :
    ∀ (l : List ZmpSpline) (acc : List TrLine),
      (l.foldl
        (fun acc s =>
          if s.four_leg_supp_ then acc
          else
            let lines := tr s.step_
            (List.range (Nat.floor (s.duration_ / dt))).foldl
              (fun a _i => a ++ [lines.1, lines.2.1, lines.2.2]) acc)
        acc).length
      = acc.length + 3 * ineqSampleSum l dt := by
  intro l
  induction l with
  | nil => intro acc; simp [ineqSampleSum]
  | cons a t ih =>
    intro acc
    simp only [List.foldl_cons]
    by_cases hfl : a.four_leg_supp_
    · rw [if_pos hfl, ih]
      simp [ineqSampleSum, hfl]
    · rw [if_neg hfl, ih]
      rw [lfc_inner_length]
      simp [ineqSampleSum, hfl]
      ring

theorem ineq_inner3_counter (ss : Splines) (k : ℕ) (h time : ℚ)
    (Ekx Fkx Eky Fky : ℕ → ℚ) (nex nfx ney nfy : ℚ)
    (lfc : List TrLine) (st2 : MatVec × ℕ) :
    ((List.range 3).foldl
      (fun st3 _j =>
        ineqRow ss k h time Ekx Fkx Eky Fky nex nfx ney nfy
          (lfc.getD st3.2 default) st3) st2).2 = st2.2 + 3 := rfl

theorem ineq_samples_counter (ss : Splines) (k : ℕ) (h dt : ℚ)
    (Ekx Fkx Eky Fky : ℕ → ℚ) (nex nfx ney nfy : ℚ) (lfc : List TrLine) :
    ∀ (n : ℕ) (st : MatVec × ℕ),
      ((List.range n).foldl
        (fun st2 (i : ℕ) =>
          (List.range 3).foldl
            (fun st3 _j =>
              ineqRow ss k h ((i : ℚ) * dt) Ekx Fkx Eky Fky nex nfx ney nfy
                (lfc.getD st3.2 default) st3) st2) st).2
      = st.2 + 3 * n := by
  intro n
  induction n with
  | zero => intro st; simp
  | succ m ih =>
    intro st
    have hr : List.range (m + 1) = List.range m ++ [m] := List.range_succ m
    rw [hr, List.foldl_append]
    simp only [List.foldl_cons, List.foldl_nil]
    rw [ineq_inner3_counter, ih]
    omega

theorem ineq_counter (sp sv : Pos2d) (lfc : List TrLine) (h dt : ℚ)
    (ss : Splines) :
    ∀ (l : List ZmpSpline) (st : MatVec × ℕ),
      (l.foldl
        (fun st s =>
          if s.four_leg_supp_ then st
          else
            let k := s.id_
            let Ekx := DescribeEByPrev ss k 0 (sv 0)
            let Fkx := DescribeFByPrev ss k 0 (sv 0) (sp 0)
            let Eky := DescribeEByPrev ss k 1 (sv 1)
            let Fky := DescribeFByPrev ss k 1 (sv 1) (sp 1)
            (List.range (Nat.floor (s.duration_ / dt))).foldl
              (fun st2 (i : ℕ) =>
                let time := (i : ℚ) * dt
                (List.range 3).foldl
                  (fun st3 _j =>
                    let l := lfc.getD st3.2 default
                    ineqRow ss k h time Ekx.1 Fkx.1 Eky.1 Fky.1
                      Ekx.2 Fkx.2 Eky.2 Fky.2 l st3)
                  st2)
              st)
        st).2
      = st.2 + 3 * ineqSampleSum l dt := by
  intro l
  induction l with
  | nil => intro st; simp [ineqSampleSum]
  | cons a t ih =>
    intro st
    simp only [List.foldl_cons]
    by_cases hfl : a.four_leg_supp_
    · rw [if_pos hfl, ih]
      simp [ineqSampleSum, hfl]
    · rw [if_neg hfl, ih]
      rw [ineq_samples_counter]
      simp [ineqSampleSum, hfl]
      ring

/-- C2: the inequality rows (both the flat line list built by
`LineForConstraint` and the rows actually written by
`CreateInequalityContraints`) number exactly
`3 · Σ floor(duration/dt)` over the non-full-support segments; a
segment whose duration is smaller than `dt` contributes zero rows. -/
theorem ineq_rowcount (ss : Splines) (tr : SuppTriangleLines) (dt : ℚ)
    (hdt : 0 < dt) :
    (LineForConstraint ss tr dt).length = 3 * ineqSampleSum ss dt ∧
    (∀ (sp sv : Pos2d) (lfc : List TrLine) (h : ℚ),
      (CreateInequalityContraints ss sp sv lfc h dt).2
        = 3 * ineqSampleSum ss dt) ∧
    (∀ s : ZmpSpline, s.duration_ < dt → LineForConstraint [s] tr dt = []) := by
  refine ⟨?_, ?_, ?_⟩
  · unfold LineForConstraint
    rw [LineForConstraint_go_length]
    simp
  · intro sp sv lfc h
    unfold CreateInequalityContraints
    rw [ineq_counter]
    simp
  · intro s hs
    unfold LineForConstraint
    simp only [List.foldl_cons, List.foldl_nil]
    by_cases hfl : s.four_leg_supp_
    · rw [if_pos hfl]
    · rw [if_neg hfl]
      have hfloor : Nat.floor (s.duration_ / dt) = 0 := by
        rw [Nat.floor_eq_zero]
        rw [div_lt_one hdt]
        exact hs
      rw [hfloor]
      simp

/-- C2 witness. -/
theorem ineq_rowcount_witness :
    (0 : ℚ) < 1 ∧
    ((LineForConstraint [⟨0, 1, 0, false⟩] (fun _ => default) 1).length
        = 3 * ineqSampleSum [⟨0, 1, 0, false⟩] 1 ∧
      (∀ (sp sv : Pos2d) (lfc : List TrLine) (h : ℚ),
        (CreateInequalityContraints [⟨0, 1, 0, false⟩] sp sv lfc h 1).2
          = 3 * ineqSampleSum [⟨0, 1, 0, false⟩] 1) ∧
      (∀ s : ZmpSpline, s.duration_ < 1 →
        LineForConstraint [s] (fun _ => default) 1 = [])) :=
  ⟨by norm_num,
   ineq_rowcount [⟨0, 1, 0, false⟩] (fun _ => default) 1 (by norm_num)⟩

/-- C5: the cost matrix built by `CreateMinAccCostFunction` is exactly
symmetric, for every spline sequence and every weight vector. -/
theorem cost_matrix_symmetric (ss : Splines) (w : ℕ → ℚ) (r c : ℕ) :
    (CreateMinAccCostFunction ss w).M r c
      = (CreateMinAccCostFunction ss w).M c r :=
  cost_foldl_symm w ss (fun _ _ => 0) (fun _ _ => rfl) r c

/-- C6: `SetupQpMatrices` on an empty spline sequence raises the
configuration error before any builder runs; no artifacts are
produced. -/
theorem setup_empty_splines_error (f : FromFootholdsFn)
    (sp sv : Pos2d) (stance : LegID → Foothold) (steps : List Foothold)
    (w : ℕ → ℚ) (m : MarginValues) (h : ℚ) :
    SetupQpMatrices [] f sp sv stance steps w m h
      = .error .configurationError := rfl

/-- C7: `SolveQp` raises the infeasible-solution error exactly when the
solver's cost is the infinity sentinel or lies below the `0.002`
threshold, and otherwise hands back the solver's coefficient vector
unchanged. -/
theorem solveqp_infeasible_iff (cost : QpCost) (x : ℕ → ℚ) :
    ((∃ e, SolveQp (cost, x) = .error e)
        ↔ cost = .inf ∨ ∃ c, cost = .fin c ∧ c < 2 / 1000) ∧
    (∀ y, SolveQp (cost, x) = .ok y → y = x) := by
  constructor
  · constructor
    · rintro ⟨e, he⟩
      match cost with
      | .inf => exact Or.inl rfl
      | .fin c =>
        refine Or.inr ⟨c, rfl, ?_⟩
        by_contra hc
        simp [SolveQp, hc] at he
    · rintro (rfl | ⟨c, rfl, hc⟩)
      · exact ⟨.infeasibleSolutionError, rfl⟩
      · exact ⟨.infeasibleSolutionError, by simp [SolveQp, hc]⟩
  · intro y hy
    match cost with
    | .inf => simp [SolveQp] at hy
    | .fin c =>
      by_cases hc : c < 2 / 1000
      · simp [SolveQp, hc] at hy
      · simp [SolveQp, hc] at hy
        exact hy.symm

/-- C7 witness. -/
theorem solveqp_infeasible_iff_witness :
    ∃ e, SolveQp (.inf, fun _ => (0 : ℚ)) = .error e :=
  (solveqp_infeasible_iff .inf (fun _ => 0)).1.mpr (Or.inl rfl)

/-- C9: `SolveIpopt` raises an error exactly when the NLP solver fails
to come up; when it comes up, the NLP object's final footholds and
coefficients are returned even if the optimization status is not a
success. -/
theorem solveipopt_init_only (i o : IpoptStatus) (fh cs : ℕ → ℚ) :
    ((∃ e, SolveIpopt i o fh cs = .error e) ↔ i ≠ .solveSucceeded) ∧
    SolveIpopt .solveSucceeded o fh cs = .ok (fh, cs) := by
  constructor
  · constructor
    · rintro ⟨e, he⟩ hi
      subst hi
      simp [SolveIpopt] at he
    · intro hi
      match i, hi with
      | .notSucceeded, _ => exact ⟨.solverInitError, rfl⟩
  · rfl

/-- C9 witness. -/
theorem solveipopt_init_only_witness :
    SolveIpopt .solveSucceeded .notSucceeded (fun _ => (1 : ℚ))
        (fun _ => (2 : ℚ))
      = .ok (fun _ => (1 : ℚ), fun _ => (2 : ℚ)) :=
  (solveipopt_init_only .solveSucceeded .notSucceeded
    (fun _ => (1 : ℚ)) (fun _ => (2 : ℚ))).2

/-- C3: evaluating `CreateInequalityContraints` at a single
non-full-support segment of duration `0.1` with `dt = 0.1`,
`start velocity (1,0)`, `start position (0,0)`, `h = 1` and the single
edge line `(p,q,r,margin) = (1,0,0,0)`: the first row is sampled at
`time = 0`, where the row constant mandated by the claim is
`p·(e_x·0 + f_x) = 0`, but the code computes `p·(e_x·0⁰ + f_x) = e_x =
1` (it multiplies the propagated `E` constant by `t[0]` instead of
`t[1]`, contradicting its own comment `x_pos = at⁵+bt⁴+ct³+dt²+et+f`
and the parallel equality-builder code, which uses `t_duration[1]`). -/
theorem ineq_const_uses_t0_bug :
    ((CreateInequalityContraints [⟨0, 1 / 10, 0, false⟩] (fun _ => 0)
        (fun d => if d = 0 then 1 else 0)
        [⟨1, 0, 0, 0⟩, ⟨0, 1, 0, 0⟩, ⟨0, 0, 1, 0⟩] 1 (1 / 10)).1.v 0 = 1) ∧
    specIneqRowConst ⟨1, 0, 0, 0⟩ 0 1 0 0 0 = 0 ∧ (1 : ℚ) ≠ 0 := by
  refine ⟨?_, by norm_num [specIneqRowConst], by norm_num⟩
  have hfl : Nat.floor ((1 : ℚ) / 10 / (1 / 10)) = 1 := by norm_num
  have hr1 : List.range 1 = [0] := rfl
  simp only [CreateInequalityContraints, List.foldl_cons, List.foldl_nil,
    Bool.false_eq_true, if_false, hfl, hr1, ineqRow,
    DescribeEByPrev, DescribeFByPrev]
  have hr3 : List.range 3 = [0, 1, 2] := rfl
  simp only [hr3, List.foldl_cons, List.foldl_nil, MatVec.init]
  norm_num [List.getD]

theorem setupEndCog_eq_avg (fs : LegID → Foothold) :
    setupEndCog fs = finalStanceAvg fs := by
  funext d
  simp [setupEndCog, finalStanceAvg, LegIDArray]

/-- C8: the terminal position target handed by `SetupQpMatrices` to the
equality constraint builder is the component-wise average of the four
final-stance foothold xy positions. -/
theorem setup_end_cog_is_average (ss : Splines) (f : FromFootholdsFn)
    (sp sv : Pos2d) (stance : LegID → Foothold) (steps : List Foothold)
    (w : ℕ → ℚ) (m : MarginValues) (h : ℚ) (hne : ss ≠ []) :
    (SetupQpMatrices ss f sp sv stance steps w m h).map (·.eq)
      = .ok (CreateEqualityContraints ss sp sv
          (finalStanceAvg (f stance steps m).2)) := by
  cases ss with
  | nil => exact absurd rfl hne
  | cons a t =>
    rw [← setupEndCog_eq_avg]
    rfl

/-- C8 witness. -/
theorem setup_end_cog_is_average_witness :
    ([⟨0, 1, 0, false⟩] : Splines) ≠ [] ∧
    (SetupQpMatrices [⟨0, 1, 0, false⟩] trivialFromFootholds
        (fun _ => 0) (fun _ => 0) (fun _ => default) [] (fun _ => 1) [] 1).map
        (·.eq)
      = .ok (CreateEqualityContraints [⟨0, 1, 0, false⟩] (fun _ => 0)
          (fun _ => 0)
          (finalStanceAvg (trivialFromFootholds (fun _ => default) [] []).2)) :=
  ⟨by decide,
   setup_end_cog_is_average [⟨0, 1, 0, false⟩] trivialFromFootholds
     (fun _ => 0) (fun _ => 0) (fun _ => default) [] (fun _ => 1) [] 1
     (by decide)⟩

/-- C10: `SetupQpMatrices` always builds the inequality constraints
with the fixed sampling interval `dt = 0.1` (both for the line list and
for the row builder), and the gravity constant used by
`CreateInequalityContraints` is fixed at `9.81`; neither is a
parameter a caller could configure. -/
theorem setup_fixed_dt_and_gravity (ss : Splines) (f : FromFootholdsFn)
    (sp sv : Pos2d) (stance : LegID → Foothold) (steps : List Foothold)
    (w : ℕ → ℚ) (m : MarginValues) (h : ℚ) (hne : ss ≠ []) :
    (SetupQpMatrices ss f sp sv stance steps w m h).map (·.ineq)
        = .ok (CreateInequalityContraints ss sp sv
            (LineForConstraint ss (f stance steps m).1 (1 / 10)) h (1 / 10)) ∧
    gravity = 981 / 100 := by
  cases ss with
  | nil => exact absurd rfl hne
  | cons a t => exact ⟨rfl, rfl⟩

/-- C10 witness. -/
theorem setup_fixed_dt_and_gravity_witness :
    ([⟨0, 1, 0, false⟩] : Splines) ≠ [] ∧
    ((SetupQpMatrices [⟨0, 1, 0, false⟩] trivialFromFootholds
          (fun _ => 0) (fun _ => 0) (fun _ => default) [] (fun _ => 1) [] 1).map
          (·.ineq)
        = .ok (CreateInequalityContraints [⟨0, 1, 0, false⟩] (fun _ => 0)
            (fun _ => 0)
            (LineForConstraint [⟨0, 1, 0, false⟩]
              (trivialFromFootholds (fun _ => default) [] []).1
              (1 / 10)) 1 (1 / 10)) ∧
      gravity = 981 / 100) :=
  ⟨by decide,
   setup_fixed_dt_and_gravity [⟨0, 1, 0, false⟩] trivialFromFootholds
     (fun _ => 0) (fun _ => 0) (fun _ => default) [] (fun _ => 1) [] 1
     (by decide)⟩

/-! ## Cost-matrix characterization (towards C4) -/

theorem costValSymAt_support (T wd : ℚ) (q r c : ℕ)
    (h : ¬(q ≤ r ∧ r < q + 4 ∧ q ≤ c ∧ c < q + 4)) :
    costValSymAt T wd q r c = 0 := by
  have h1 : ¬(r = q ∧ c = q) := by clear * - h; omega
  have h2 : ¬((r = q ∧ c = q + 1) ∨ (r = q + 1 ∧ c = q)) := by
    clear * - h; omega
  have h3 : ¬((r = q ∧ c = q + 2) ∨ (r = q + 2 ∧ c = q)) := by
    clear * - h; omega
  have h4 : ¬((r = q ∧ c = q + 3) ∨ (r = q + 3 ∧ c = q)) := by
    clear * - h; omega
  have h5 : ¬(r = q + 1 ∧ c = q + 1) := by clear * - h; omega
  have h6 : ¬((r = q + 1 ∧ c = q + 2) ∨ (r = q + 2 ∧ c = q + 1)) := by
    clear * - h; omega
  have h7 : ¬((r = q + 1 ∧ c = q + 3) ∨ (r = q + 3 ∧ c = q + 1)) := by
    clear * - h; omega
  have h8 : ¬(r = q + 2 ∧ c = q + 2) := by clear * - h; omega
  have h9 : ¬((r = q + 2 ∧ c = q + 3) ∨ (r = q + 3 ∧ c = q + 2)) := by
    clear * - h; omega
  have h10 : ¬(r = q + 3 ∧ c = q + 3) := by clear * - h; omega
  unfold costValSymAt
  rw [if_neg h1, if_neg h2, if_neg h3, if_neg h4, if_neg h5, if_neg h6,
    if_neg h7, if_neg h8, if_neg h9, if_neg h10]

theorem costValSymAt_crossZero (T wd : ℚ) (k r c : ℕ)
    (h : r / 4 ≠ c / 4) : costValSymAt T wd (4 * k) r c = 0 := by
  have h1 : ¬(r = 4 * k ∧ c = 4 * k) := by clear * - h; omega
  have h2 : ¬((r = 4 * k ∧ c = 4 * k + 1) ∨ (r = 4 * k + 1 ∧ c = 4 * k)) := by
    clear * - h; omega
  have h3 : ¬((r = 4 * k ∧ c = 4 * k + 2) ∨ (r = 4 * k + 2 ∧ c = 4 * k)) := by
    clear * - h; omega
  have h4 : ¬((r = 4 * k ∧ c = 4 * k + 3) ∨ (r = 4 * k + 3 ∧ c = 4 * k)) := by
    clear * - h; omega
  have h5 : ¬(r = 4 * k + 1 ∧ c = 4 * k + 1) := by clear * - h; omega
  have h6 : ¬((r = 4 * k + 1 ∧ c = 4 * k + 2) ∨
      (r = 4 * k + 2 ∧ c = 4 * k + 1)) := by
    clear * - h; omega
  have h7 : ¬((r = 4 * k + 1 ∧ c = 4 * k + 3) ∨
      (r = 4 * k + 3 ∧ c = 4 * k + 1)) := by
    clear * - h; omega
  have h8 : ¬(r = 4 * k + 2 ∧ c = 4 * k + 2) := by clear * - h; omega
  have h9 : ¬((r = 4 * k + 2 ∧ c = 4 * k + 3) ∨
      (r = 4 * k + 3 ∧ c = 4 * k + 2)) := by
    clear * - h; omega
  have h10 : ¬(r = 4 * k + 3 ∧ c = 4 * k + 3) := by clear * - h; omega
  unfold costValSymAt
  rw [if_neg h1, if_neg h2, if_neg h3, if_neg h4, if_neg h5, if_neg h6,
    if_neg h7, if_neg h8, if_neg h9, if_neg h10]

set_option maxHeartbeats 3200000 in
theorem costValSymAt_apply (T wd : ℚ) (q ii jj : ℕ)
    (hii : ii < 4) (hjj : jj < 4) :
    costValSymAt T wd q (q + ii) (q + jj) = cvTable T wd ii jj := by
  interval_cases ii <;> interval_cases jj <;> simp [costValSymAt, cvTable]

theorem costValSymAt_symm (T wd : ℚ) (q r c : ℕ) :
    costValSymAt T wd q r c = costValSymAt T wd q c r := by
  by_cases hin : q ≤ r ∧ r < q + 4 ∧ q ≤ c ∧ c < q + 4
  · obtain ⟨ii, hii, rfl⟩ : ∃ ii, ii < 4 ∧ r = q + ii :=
      ⟨r - q, by clear * - hin; omega, by clear * - hin; omega⟩
    obtain ⟨jj, hjj, rfl⟩ : ∃ jj, jj < 4 ∧ c = q + jj :=
      ⟨c - q, by clear * - hin; omega, by clear * - hin; omega⟩
    rw [costValSymAt_apply _ _ _ _ _ hii hjj,
      costValSymAt_apply _ _ _ _ _ hjj hii]
    clear hin
    interval_cases ii <;> interval_cases jj <;> rfl
  · rw [costValSymAt_support _ _ _ _ _ hin,
      costValSymAt_support _ _ _ _ _
        (fun hc => hin ⟨hc.2.2.1, hc.2.2.2, hc.1, hc.2.1⟩)]

theorem var_index_arith (id dim i : ℕ) :
    var_index id dim i = 8 * id + 4 * dim + i := by
  unfold var_index kDim2d kOptCoeff
  omega

theorem costBlockWrite_outside (s : ZmpSpline) (w : ℕ → ℚ) (dim : ℕ)
    (M : ℕ → ℕ → ℚ) (r c : ℕ)
    (h : ¬(8 * s.id_ + 4 * dim ≤ r ∧ r < 8 * s.id_ + 4 * dim + 4 ∧
      8 * s.id_ + 4 * dim ≤ c ∧ c < 8 * s.id_ + 4 * dim + 4)) :
    costBlockWrite s w dim M r c = M r c := by
  have g1 : ¬(r = 8 * s.id_ + 4 * dim + 3 ∧ c = 8 * s.id_ + 4 * dim + 3) := by
    clear * - h; omega
  have g2 : ¬(r = 8 * s.id_ + 4 * dim + 2 ∧ c = 8 * s.id_ + 4 * dim + 3) := by
    clear * - h; omega
  have g3 : ¬(r = 8 * s.id_ + 4 * dim + 2 ∧ c = 8 * s.id_ + 4 * dim + 2) := by
    clear * - h; omega
  have g4 : ¬(r = 8 * s.id_ + 4 * dim + 1 ∧ c = 8 * s.id_ + 4 * dim + 3) := by
    clear * - h; omega
  have g5 : ¬(r = 8 * s.id_ + 4 * dim + 1 ∧ c = 8 * s.id_ + 4 * dim + 2) := by
    clear * - h; omega
  have g6 : ¬(r = 8 * s.id_ + 4 * dim + 1 ∧ c = 8 * s.id_ + 4 * dim + 1) := by
    clear * - h; omega
  have g7 : ¬(r = 8 * s.id_ + 4 * dim ∧ c = 8 * s.id_ + 4 * dim + 3) := by
    clear * - h; omega
  have g8 : ¬(r = 8 * s.id_ + 4 * dim ∧ c = 8 * s.id_ + 4 * dim + 2) := by
    clear * - h; omega
  have g9 : ¬(r = 8 * s.id_ + 4 * dim ∧ c = 8 * s.id_ + 4 * dim + 1) := by
    clear * - h; omega
  have g10 : ¬(r = 8 * s.id_ + 4 * dim ∧ c = 8 * s.id_ + 4 * dim) := by
    clear * - h; omega
  unfold costBlockWrite upd
  rw [var_index_arith, var_index_arith, var_index_arith, var_index_arith]
  simp only [Nat.add_zero]
  rw [if_neg g1, if_neg g2, if_neg g3, if_neg g4, if_neg g5, if_neg g6,
    if_neg g7, if_neg g8, if_neg g9, if_neg g10]

set_option maxHeartbeats 3200000 in
theorem costBlockWrite_at (s : ZmpSpline) (w : ℕ → ℚ) (dim : ℕ)
    (M : ℕ → ℕ → ℚ) (ii jj : ℕ) (hii : ii < 4) (hjj : jj < 4)
    (hij : ii ≤ jj) :
    costBlockWrite s w dim M (8 * s.id_ + 4 * dim + ii)
        (8 * s.id_ + 4 * dim + jj)
      = cvTable s.duration_ (w dim) ii jj := by
  unfold costBlockWrite upd
  rw [var_index_arith, var_index_arith, var_index_arith, var_index_arith]
  interval_cases ii <;> interval_cases jj <;>
    first
      | omega
      | simp [cvTable]

theorem dimStep_char (s : ZmpSpline) (w : ℕ → ℚ) (dim : ℕ)
    (M : ℕ → ℕ → ℚ)
    (hsymm : ∀ r c, M r c = M c r)
    (hz : ∀ r c, 8 * s.id_ + 4 * dim ≤ r → r < 8 * s.id_ + 4 * dim + 4 →
      8 * s.id_ + 4 * dim ≤ c → c < 8 * s.id_ + 4 * dim + 4 → M r c = 0)
    (r c : ℕ) :
    mirrorLower (costBlockWrite s w dim M) r c
      = M r c + costValSymAt s.duration_ (w dim) (8 * s.id_ + 4 * dim) r c := by
  by_cases hin : 8 * s.id_ + 4 * dim ≤ r ∧ r < 8 * s.id_ + 4 * dim + 4 ∧
      8 * s.id_ + 4 * dim ≤ c ∧ c < 8 * s.id_ + 4 * dim + 4
  · obtain ⟨ii, hii, rfl⟩ : ∃ ii, ii < 4 ∧ r = 8 * s.id_ + 4 * dim + ii :=
      ⟨r - (8 * s.id_ + 4 * dim), by omega, by omega⟩
    obtain ⟨jj, hjj, rfl⟩ : ∃ jj, jj < 4 ∧ c = 8 * s.id_ + 4 * dim + jj :=
      ⟨c - (8 * s.id_ + 4 * dim), by omega, by omega⟩
    rw [costValSymAt_apply _ _ _ _ _ hii hjj,
      hz _ _ (by omega) (by omega) (by omega) (by omega), zero_add]
    unfold mirrorLower
    by_cases hm : 8 * s.id_ + 4 * dim + jj < 8 * s.id_ + 4 * dim + ii
    · rw [if_pos hm, costBlockWrite_at s w dim M jj ii hjj hii (by omega)]
      interval_cases ii <;> interval_cases jj <;> rfl
    · rw [if_neg hm, costBlockWrite_at s w dim M ii jj hii hjj (by omega)]
  · rw [costValSymAt_support _ _ _ _ _ hin, add_zero]
    unfold mirrorLower
    by_cases hm : c < r
    · rw [if_pos hm,
        costBlockWrite_outside s w dim M c r
          (fun hc => hin ⟨hc.2.2.1, hc.2.2.2, hc.1, hc.2.1⟩),
        hsymm c r]
    · rw [if_neg hm, costBlockWrite_outside s w dim M r c hin]

theorem spline_step_char (s : ZmpSpline) (w : ℕ → ℚ) (M : ℕ → ℕ → ℚ)
    (hsymm : ∀ r c, M r c = M c r)
    (hz : ∀ r c, 8 * s.id_ ≤ r → r < 8 * s.id_ + 8 →
      8 * s.id_ ≤ c → c < 8 * s.id_ + 8 → M r c = 0)
    (r c : ℕ) :
    ((List.range kDim2d).foldl
        (fun M dim => mirrorLower (costBlockWrite s w dim M)) M) r c
      = M r c + costValSymAt s.duration_ (w 0) (8 * s.id_) r c
        + costValSymAt s.duration_ (w 1) (8 * s.id_ + 4) r c := by
  have hr2 : List.range kDim2d = [0, 1] := rfl
  rw [hr2]
  simp only [List.foldl_cons, List.foldl_nil]
  have h0 : ∀ r c, mirrorLower (costBlockWrite s w 0 M) r c
      = M r c + costValSymAt s.duration_ (w 0) (8 * s.id_ + 4 * 0) r c :=
    dimStep_char s w 0 M hsymm
      (fun r c b1 b2 b3 b4 =>
        hz r c (by clear * - b1; omega) (by clear * - b2; omega)
          (by clear * - b3; omega) (by clear * - b4; omega))
  have hsymm0 : ∀ r c, mirrorLower (costBlockWrite s w 0 M) r c
      = mirrorLower (costBlockWrite s w 0 M) c r := by
    intro r c
    rw [h0 r c, h0 c r, hsymm r c, costValSymAt_symm]
  have hz0 : ∀ r c, 8 * s.id_ + 4 * 1 ≤ r → r < 8 * s.id_ + 4 * 1 + 4 →
      8 * s.id_ + 4 * 1 ≤ c → c < 8 * s.id_ + 4 * 1 + 4 →
      mirrorLower (costBlockWrite s w 0 M) r c = 0 := by
    intro r c b1 b2 b3 b4
    rw [h0 r c,
      hz r c (by clear * - b1; omega) (by clear * - b2; omega)
        (by clear * - b3; omega) (by clear * - b4; omega),
      costValSymAt_support _ _ _ _ _ (by clear * - b1 b3; omega)]
    norm_num
  have h1 := dimStep_char s w 1 (mirrorLower (costBlockWrite s w 0 M))
    hsymm0 hz0 r c
  rw [h1, h0 r c]
  norm_num

theorem cost_fold_char (w : ℕ → ℚ) :
    ∀ (l : List ZmpSpline) (M : ℕ → ℕ → ℚ),
      (∀ r c, M r c = M c r) →
      (∀ s ∈ l, ∀ r c, 8 * s.id_ ≤ r → r < 8 * s.id_ + 8 →
        8 * s.id_ ≤ c → c < 8 * s.id_ + 8 → M r c = 0) →
      l.Pairwise (fun a b => a.id_ ≠ b.id_) →
      ∀ r c,
        (l.foldl
          (fun M s =>
            (List.range kDim2d).foldl
              (fun M dim => mirrorLower (costBlockWrite s w dim M)) M) M) r c
          = M r c + (l.map (fun s =>
              costValSymAt s.duration_ (w 0) (8 * s.id_) r c
              + costValSymAt s.duration_ (w 1) (8 * s.id_ + 4) r c)).sum := by
  intro l
  induction l with
  | nil => intro M hsymm hz hpw r c; simp
  | cons a t ih =>
    intro M hsymm hz hpw r c
    simp only [List.foldl_cons, List.map_cons, List.sum_cons]
    have hstep := spline_step_char a w M hsymm
      (hz a (List.mem_cons_self a t))
    have hsymm' : ∀ r c,
        ((List.range kDim2d).foldl
          (fun M dim => mirrorLower (costBlockWrite a w dim M)) M) r c
        = ((List.range kDim2d).foldl
          (fun M dim => mirrorLower (costBlockWrite a w dim M)) M) c r := by
      intro r c
      rw [hstep r c, hstep c r, hsymm r c,
        costValSymAt_symm a.duration_ (w 0) (8 * a.id_) r c,
        costValSymAt_symm a.duration_ (w 1) (8 * a.id_ + 4) r c]
    have hz' : ∀ s ∈ t, ∀ r c, 8 * s.id_ ≤ r → r < 8 * s.id_ + 8 →
        8 * s.id_ ≤ c → c < 8 * s.id_ + 8 →
        ((List.range kDim2d).foldl
          (fun M dim => mirrorLower (costBlockWrite a w dim M)) M) r c = 0 := by
      intro s hs r c b1 b2 b3 b4
      have hane : a.id_ ≠ s.id_ := (List.pairwise_cons.mp hpw).1 s hs
      rw [hstep r c, hz s (List.mem_cons_of_mem a hs) r c b1 b2 b3 b4,
        costValSymAt_support _ _ _ _ _
          (by clear * - b1 b2 b3 b4 hane; omega),
        costValSymAt_support _ _ _ _ _
          (by clear * - b1 b2 b3 b4 hane; omega)]
      norm_num
    rw [ih _ hsymm' hz' (List.pairwise_cons.mp hpw).2 r c, hstep r c]
    ring

theorem cost_matrix_char (ss : Splines) (w : ℕ → ℚ)
    (hpw : ss.Pairwise (fun a b => a.id_ ≠ b.id_)) (r c : ℕ) :
    (CreateMinAccCostFunction ss w).M r c
      = (ss.map (fun s =>
          costValSymAt s.duration_ (w 0) (8 * s.id_) r c
          + costValSymAt s.duration_ (w 1) (8 * s.id_ + 4) r c)).sum := by
  have h := cost_fold_char w ss (fun _ _ => 0) (fun _ _ => rfl)
    (fun _ _ _ _ _ _ _ _ => rfl) hpw r c
  have hM : (CreateMinAccCostFunction ss w).M
      = ss.foldl
          (fun M s =>
            (List.range kDim2d).foldl
              (fun M dim => mirrorLower (costBlockWrite s w dim M)) M)
          (fun _ _ => 0) := rfl
  rw [hM, h]
  exact zero_add _

theorem splineIdsOk_get (ss : Splines) (h : splineIdsOkB ss = true) :
    ∀ k, k < ss.length → ((ss.get? k).getD default).id_ = k := by
  intro k hk
  unfold splineIdsOkB at h
  rw [List.all_eq_true] at h
  have hh := h k (List.mem_range.mpr hk)
  rw [beq_iff_eq] at hh
  cases hg : ss.get? k with
  | none => rw [hg] at hh; simp at hh
  | some s =>
    rw [hg] at hh
    simp at hh
    simp [hg, hh]

theorem splineIdsOk_pairwise (ss : Splines) (h : splineIdsOkB ss = true) :
    ss.Pairwise (fun a b => a.id_ ≠ b.id_) := by
  rw [List.pairwise_iff_get]
  intro i j hlt
  have hi := splineIdsOk_get ss h i.1 i.2
  have hj := splineIdsOk_get ss h j.1 j.2
  rw [List.get?_eq_get i.2] at hi
  rw [List.get?_eq_get j.2] at hj
  simp only [Option.getD_some] at hi hj
  rw [hi, hj]
  exact Nat.ne_of_lt hlt

theorem splineIdsOk_mem (ss : Splines) (h : splineIdsOkB ss = true) :
    ∀ s ∈ ss, s.id_ < ss.length := by
  intro s hs
  obtain ⟨i, rfl⟩ := List.mem_iff_get.mp hs
  have hi := splineIdsOk_get ss h i.1 i.2
  rw [List.get?_eq_get i.2] at hi
  simp only [Option.getD_some] at hi
  rw [hi]
  exact i.2

theorem quadForm_add (n : ℕ) (M N : ℕ → ℕ → ℚ) (x : ℕ → ℚ) :
    quadForm n (fun r c => M r c + N r c) x
      = quadForm n M x + quadForm n N x := by
  unfold quadForm
  rw [← Finset.sum_add_distrib]
  refine Finset.sum_congr rfl fun i _ => ?_
  rw [← Finset.sum_add_distrib]
  exact Finset.sum_congr rfl fun j _ => by ring

theorem quadForm_listSum (n : ℕ) (x : ℕ → ℚ) (F : ZmpSpline → ℕ → ℕ → ℚ) :
    ∀ l : List ZmpSpline,
      quadForm n (fun r c => (l.map (fun s => F s r c)).sum) x
        = (l.map (fun s => quadForm n (F s) x)).sum := by
  intro l
  induction l with
  | nil => simp [quadForm]
  | cons a t ih =>
    simp only [List.map_cons, List.sum_cons]
    rw [quadForm_add, ih]

theorem quadForm_block (q n : ℕ) (g : ℕ → ℕ → ℚ) (x : ℕ → ℚ)
    (hsupp : ∀ r c, ¬(q ≤ r ∧ r < q + 4 ∧ q ≤ c ∧ c < q + 4) → g r c = 0)
    (hn : q + 4 ≤ n) :
    quadForm n g x = ∑ ii ∈ Finset.range 4, ∑ jj ∈ Finset.range 4,
      x (q + ii) * g (q + ii) (q + jj) * x (q + jj) := by
  unfold quadForm
  have hsub : Finset.Ico q (q + 4) ⊆ Finset.range n := by
    intro a ha
    rw [Finset.mem_Ico] at ha
    rw [Finset.mem_range]
    omega
  rw [← Finset.sum_subset hsub (by
    intro i _ hi
    rw [Finset.mem_Ico] at hi
    refine Finset.sum_eq_zero fun j _ => ?_
    rw [hsupp i j (by clear * - hi; omega)]
    ring)]
  have hinner : ∀ i ∈ Finset.Ico q (q + 4),
      (∑ j ∈ Finset.range n, x i * g i j * x j)
        = ∑ j ∈ Finset.Ico q (q + 4), x i * g i j * x j := by
    intro i _
    refine (Finset.sum_subset hsub ?_).symm
    intro j _ hj
    rw [Finset.mem_Ico] at hj
    rw [hsupp i j (by clear * - hj; omega)]
    ring
  rw [Finset.sum_congr rfl hinner]
  rw [Finset.sum_Ico_eq_sum_range]
  simp only [Nat.add_sub_cancel_left]
  refine Finset.sum_congr rfl fun ii _ => ?_
  rw [Finset.sum_Ico_eq_sum_range]
  simp only [Nat.add_sub_cancel_left]

set_option maxHeartbeats 1600000 in
theorem quadForm_costValSymAt (T wd : ℚ) (q n : ℕ) (x : ℕ → ℚ)
    (hn : q + 4 ≤ n) :
    quadForm n (costValSymAt T wd q) x
      = wd * acc2IntQ T (x q) (x (q + 1)) (x (q + 2)) (x (q + 3)) := by
  rw [quadForm_block q n _ x
    (fun r c h => costValSymAt_support T wd q r c h) hn]
  simp only [Finset.sum_range_succ, Finset.sum_range_zero]
  rw [costValSymAt_apply T wd q 0 0 (by norm_num) (by norm_num),
    costValSymAt_apply T wd q 0 1 (by norm_num) (by norm_num),
    costValSymAt_apply T wd q 0 2 (by norm_num) (by norm_num),
    costValSymAt_apply T wd q 0 3 (by norm_num) (by norm_num),
    costValSymAt_apply T wd q 1 0 (by norm_num) (by norm_num),
    costValSymAt_apply T wd q 1 1 (by norm_num) (by norm_num),
    costValSymAt_apply T wd q 1 2 (by norm_num) (by norm_num),
    costValSymAt_apply T wd q 1 3 (by norm_num) (by norm_num),
    costValSymAt_apply T wd q 2 0 (by norm_num) (by norm_num),
    costValSymAt_apply T wd q 2 1 (by norm_num) (by norm_num),
    costValSymAt_apply T wd q 2 2 (by norm_num) (by norm_num),
    costValSymAt_apply T wd q 2 3 (by norm_num) (by norm_num),
    costValSymAt_apply T wd q 3 0 (by norm_num) (by norm_num),
    costValSymAt_apply T wd q 3 1 (by norm_num) (by norm_num),
    costValSymAt_apply T wd q 3 2 (by norm_num) (by norm_num),
    costValSymAt_apply T wd q 3 3 (by norm_num) (by norm_num)]
  simp only [cvTable, Nat.add_zero]
  unfold acc2IntQ
  ring

theorem list_map_sum_eq_range (l : List ZmpSpline) (f : ZmpSpline → ℚ) :
    (l.map f).sum
      = ∑ k ∈ Finset.range l.length, f ((l.get? k).getD default) := by
  induction l with
  | nil => simp
  | cons a t ih =>
    simp only [List.map_cons, List.sum_cons, List.length_cons]
    rw [Finset.sum_range_succ']
    simp only [List.get?_cons_succ, List.get?_cons_zero, Option.getD_some]
    rw [← ih]
    exact add_comm _ _

theorem integral_sq_accel (a b c d T : ℝ) :
    (∫ t in (0:ℝ)..T, (20 * a * t ^ 3 + 12 * b * t ^ 2 + 6 * c * t
        + 2 * d) ^ 2)
      = 400 / 7 * a ^ 2 * T ^ 7 + 80 * a * b * T ^ 6 + 48 * a * c * T ^ 5
        + 20 * a * d * T ^ 4 + 144 / 5 * b ^ 2 * T ^ 5 + 36 * b * c * T ^ 4
        + 16 * b * d * T ^ 3 + 12 * c ^ 2 * T ^ 3 + 12 * c * d * T ^ 2
        + 4 * d ^ 2 * T := by
  have hmono : ∀ (k : ℝ) (m : ℕ),
      IntervalIntegrable (fun t : ℝ => k * t ^ m) MeasureTheory.volume 0 T :=
    fun k m =>
      (continuous_const.mul (continuous_pow m)).intervalIntegrable 0 T
  have hint : ∀ (k : ℝ) (m : ℕ),
      (∫ t in (0:ℝ)..T, k * t ^ m) = k * T ^ (m + 1) / (m + 1) := by
    intro k m
    rw [intervalIntegral.integral_const_mul, integral_pow,
      zero_pow (by omega : m + 1 ≠ 0)]
    ring
  have hfun : ∀ t : ℝ, (20 * a * t ^ 3 + 12 * b * t ^ 2 + 6 * c * t
        + 2 * d) ^ 2
      = (400 * a ^ 2) * t ^ 6 + ((480 * a * b) * t ^ 5
        + ((240 * a * c + 144 * b ^ 2) * t ^ 4
        + ((80 * a * d + 144 * b * c) * t ^ 3
        + ((48 * b * d + 36 * c ^ 2) * t ^ 2
        + ((24 * c * d) * t ^ 1 + (4 * d ^ 2) * t ^ 0))))) := by
    intro t
    ring
  simp only [hfun]
  rw [intervalIntegral.integral_add (hmono _ _)
      ((hmono _ _).add ((hmono _ _).add ((hmono _ _).add
        ((hmono _ _).add ((hmono _ _).add (hmono _ _)))))),
    intervalIntegral.integral_add (hmono _ _)
      ((hmono _ _).add ((hmono _ _).add ((hmono _ _).add
        ((hmono _ _).add (hmono _ _))))),
    intervalIntegral.integral_add (hmono _ _)
      ((hmono _ _).add ((hmono _ _).add ((hmono _ _).add (hmono _ _)))),
    intervalIntegral.integral_add (hmono _ _)
      ((hmono _ _).add ((hmono _ _).add (hmono _ _))),
    intervalIntegral.integral_add (hmono _ _) ((hmono _ _).add (hmono _ _)),
    intervalIntegral.integral_add (hmono _ _) (hmono _ _)]
  simp only [hint]
  norm_num
  ring

/-- C4: under the positional-id well-formedness of the spline sequence,
the cost matrix couples no two distinct (segment, axis) blocks, and its
quadratic form is exactly the weighted sum, over segments and axes, of
the integral over `[0, duration]` of the squared second derivative of
the quintic restricted to that block's free coefficients `{A,B,C,D}`
(`E`,`F` do not appear). -/
theorem cost_quadform_integral (ss : Splines) (w x : ℕ → ℚ)
    (hids : splineIdsOkB ss = true) :
    (∀ r c, r / 4 ≠ c / 4 → (CreateMinAccCostFunction ss w).M r c = 0) ∧
    ((quadForm (GetOptCoeffCount ss) (CreateMinAccCostFunction ss w).M x :
        ℚ) : ℝ)
      = ∑ k ∈ Finset.range ss.length, ∑ d ∈ Finset.range 2,
          (w d : ℝ) *
            ∫ t in (0:ℝ)..((durAt ss k : ℚ) : ℝ),
              (20 * ((x (var_index k d 0) : ℚ) : ℝ) * t ^ 3
                + 12 * ((x (var_index k d 1) : ℚ) : ℝ) * t ^ 2
                + 6 * ((x (var_index k d 2) : ℚ) : ℝ) * t
                + 2 * ((x (var_index k d 3) : ℚ) : ℝ)) ^ 2 := by
  have hpw := splineIdsOk_pairwise ss hids
  constructor
  · intro r c hrc
    rw [cost_matrix_char ss w hpw r c]
    refine List.sum_eq_zero ?_
    intro y hy
    rw [List.mem_map] at hy
    obtain ⟨s, hs, rfl⟩ := hy
    have h84 : 8 * s.id_ + 4 = 4 * (2 * s.id_ + 1) := by ring
    have h8 : 8 * s.id_ = 4 * (2 * s.id_) := by ring
    rw [h84, h8, costValSymAt_crossZero _ _ _ _ _ hrc,
      costValSymAt_crossZero _ _ _ _ _ hrc]
    norm_num
  · have hchar := cost_matrix_char ss w hpw
    have hquad1 : quadForm (GetOptCoeffCount ss)
          (CreateMinAccCostFunction ss w).M x
        = quadForm (GetOptCoeffCount ss)
            (fun r c => (ss.map (fun s =>
                costValSymAt s.duration_ (w 0) (8 * s.id_) r c
                + costValSymAt s.duration_ (w 1) (8 * s.id_ + 4) r c)).sum)
            x := by
      unfold quadForm
      exact Finset.sum_congr rfl fun i _ => Finset.sum_congr rfl fun j _ =>
        by rw [hchar i j]
    have hquad2 : quadForm (GetOptCoeffCount ss)
          (fun r c => (ss.map (fun s =>
              costValSymAt s.duration_ (w 0) (8 * s.id_) r c
              + costValSymAt s.duration_ (w 1) (8 * s.id_ + 4) r c)).sum) x
        = (ss.map (fun s => quadForm (GetOptCoeffCount ss)
            (fun r c => costValSymAt s.duration_ (w 0) (8 * s.id_) r c
              + costValSymAt s.duration_ (w 1) (8 * s.id_ + 4) r c) x)).sum :=
      quadForm_listSum _ _ _ ss
    have hQ : quadForm (GetOptCoeffCount ss)
          (CreateMinAccCostFunction ss w).M x
        = ∑ k ∈ Finset.range ss.length,
            (w 0 * acc2IntQ (durAt ss k) (x (8 * k)) (x (8 * k + 1))
                (x (8 * k + 2)) (x (8 * k + 3))
              + w 1 * acc2IntQ (durAt ss k) (x (8 * k + 4)) (x (8 * k + 4 + 1))
                (x (8 * k + 4 + 2)) (x (8 * k + 4 + 3))) := by
      rw [hquad1, hquad2, list_map_sum_eq_range]
      refine Finset.sum_congr rfl fun k hk => ?_
      rw [Finset.mem_range] at hk
      have hid := splineIdsOk_get ss hids k hk
      have hdur : ((ss.get? k).getD default).duration_ = durAt ss k := rfl
      rw [quadForm_add, hid, hdur,
        quadForm_costValSymAt _ _ _ _ _
          (by unfold GetOptCoeffCount kDim2d kOptCoeff; clear * - hk; omega),
        quadForm_costValSymAt _ _ _ _ _
          (by unfold GetOptCoeffCount kDim2d kOptCoeff; clear * - hk; omega)]
    rw [hQ]
    push_cast [acc2IntQ]
    refine Finset.sum_congr rfl fun k hk => ?_
    rw [Finset.sum_range_succ, Finset.sum_range_one, integral_sq_accel,
      integral_sq_accel]
    simp only [var_index_arith]
    push_cast
    norm_num

/-- C4 witness. -/
theorem cost_quadform_integral_witness :
    splineIdsOkB [⟨0, 1, 0, false⟩] = true ∧
    ((∀ r c, r / 4 ≠ c / 4 →
        (CreateMinAccCostFunction [⟨0, 1, 0, false⟩] (fun _ => 1)).M r c = 0) ∧
      ((quadForm (GetOptCoeffCount [⟨0, 1, 0, false⟩])
          (CreateMinAccCostFunction [⟨0, 1, 0, false⟩] (fun _ => 1)).M
          (fun _ => 0) : ℚ) : ℝ)
        = ∑ k ∈ Finset.range ([⟨0, 1, 0, false⟩] : Splines).length,
            ∑ d ∈ Finset.range 2,
              (((fun _ => (1 : ℚ)) d : ℚ) : ℝ) *
                ∫ t in (0:ℝ)..((durAt [⟨0, 1, 0, false⟩] k : ℚ) : ℝ),
                  (20 * (((fun _ => (0 : ℚ)) (var_index k d 0) : ℚ) : ℝ)
                      * t ^ 3
                    + 12 * (((fun _ => (0 : ℚ)) (var_index k d 1) : ℚ) : ℝ)
                      * t ^ 2
                    + 6 * (((fun _ => (0 : ℚ)) (var_index k d 2) : ℚ) : ℝ) * t
                    + 2 * (((fun _ => (0 : ℚ)) (var_index k d 3) : ℚ) : ℝ))
                    ^ 2) :=
  ⟨by decide,
   cost_quadform_integral [⟨0, 1, 0, false⟩] (fun _ => 1) (fun _ => 0)
     (by decide)⟩

end xpp
